import Mathlib

/-!
Shallow embedding of the handle/pool allocator repository.

Two variants exist in the sources:

* `src/handle_pool/handle_pool.h` — `mem_handle::HandlePool<T, kCapacity>`:
  each slot (`Item`) carries raw storage, a `uint32_t generation` and an
  `in_use` flag; a `std::vector<uint32_t>` free list is consumed from the
  back; `Create` placement-news into a popped slot, `Destroy` destructs,
  clears `in_use`, bumps the generation modulo 2^32 and pushes the index
  back.  Modelled below in namespace `mem_handle`.

* `src/mem_handle.hpp` — `Pool<T, kCapacity>`: stores a
  `std::array<T, kCapacity>` of always-constructed objects, a
  `uint16_t` generation array and the same style of free list; it has no
  occupancy flag.  Modelled below in namespace `PoolM`.

Machine integers are embedded as `Nat` with explicit `% 2^w` where the
C++ performs wrapping arithmetic.  `std::vector` push_back/back/pop_back
become `· ++ [x]` / `List.getLast?` / `List.dropLast`.  Raw slot storage
that may or may not hold a constructed `T` becomes `Option α`.
-/

namespace mem_handle

/-- The constant `2^32`, the modulus of `uint32_t` arithmetic. -/
def U32 : Nat := 2 ^ 32

/-- The value `std::numeric_limits<uint32_t>::max()`, the sentinel index. -/
def sentinel : Nat := U32 - 1

/-- Embeds `mem_handle::Handle`: two `uint32_t` fields. -/
structure Handle where
  index : Nat
  generation : Nat
deriving DecidableEq

/-- Embeds `Handle::IsValid`: the index is not the sentinel. -/
def Handle.IsValid (h : Handle) : Bool :=
  h.index != sentinel

/-- Embeds `Handle::Invalid`: sentinel index, generation 0. -/
def Handle.Invalid : Handle :=
  { index := sentinel, generation := 0 }

/-- Embeds `HandlePool::Item`: storage that may hold a constructed `T`
(`none` = uninitialized bytes), a generation counter and the `in_use`
flag. -/
structure Item (α : Type) where
  storage : Option α
  generation : Nat
  in_use : Bool
deriving DecidableEq

/-- Default item used as the (never reached in-range) `List.getD`
fallback. -/
def dItem (α : Type) : Item α :=
  { storage := none, generation := 0, in_use := false }

/-- Embeds `mem_handle::HandlePool<T, kCapacity>`: the slot array
(`items.length = kCapacity`) and the free list. -/
structure HandlePool (α : Type) where
  items : List (Item α)
  free_list : List Nat
deriving DecidableEq

/-- Embeds the `HandlePool()` constructor: every slot not in use with
generation 0, free list `0, 1, ..., kCapacity-1` in push order. -/
def HandlePool.init (α : Type) (kCapacity : Nat) : HandlePool α :=
  { items := List.replicate kCapacity (dItem α)
    free_list := List.range kCapacity }

/-- Embeds `HandlePool::Capacity` (`kCapacity`, the fixed length of the
item array). -/
def HandlePool.Capacity (p : HandlePool α) : Nat :=
  p.items.length

/-- Embeds `HandlePool::IsValidInternal`: syntactic validity, bounds
check, occupancy and generation equality. -/
def HandlePool.IsValidInternal (p : HandlePool α) (h : Handle) : Bool :=
  if h.IsValid = false then false
  else if p.Capacity ≤ h.index then false
  else
    (p.items.getD h.index (dItem α)).in_use &&
      ((p.items.getD h.index (dItem α)).generation == h.generation)

/-- Embeds `HandlePool::Create` (the non-throwing path): pop the back of
the free list, construct the object there, mark the slot in use and
return a handle with the slot's current generation. -/
def HandlePool.Create (p : HandlePool α) (v : α) : Handle × HandlePool α :=
  match p.free_list.getLast? with
  | none => (Handle.Invalid, p)
  | some slot =>
    let item := p.items.getD slot (dItem α)
    let item' : Item α := { storage := some v, generation := item.generation, in_use := true }
    ({ index := slot, generation := item.generation },
     { items := p.items.set slot item', free_list := p.free_list.dropLast })

/-- Embeds `HandlePool::Destroy`: when the handle passes
`IsValidInternal`, destruct the object, clear `in_use`, increment the
slot's generation (wrapping `uint32_t`) and push the index back on the
free list; otherwise do nothing. -/
def HandlePool.Destroy (p : HandlePool α) (h : Handle) : HandlePool α :=
  if p.IsValidInternal h then
    let item := p.items.getD h.index (dItem α)
    let item' : Item α := { storage := none, generation := (item.generation + 1) % U32, in_use := false }
    { items := p.items.set h.index item', free_list := p.free_list ++ [h.index] }
  else p

/-- Embeds `HandlePool::Get`: the payload reachable through a returned
view when the handle is valid, `none` (`std::nullopt`) otherwise. -/
def HandlePool.Get (p : HandlePool α) (h : Handle) : Option α :=
  if p.IsValidInternal h then (p.items.getD h.index (dItem α)).storage
  else none

/-- Embeds the public `HandlePool::IsValid` (the lock-scoped wrapper
around `IsValidInternal`). -/
def HandlePool.IsValidP (p : HandlePool α) (h : Handle) : Bool :=
  p.IsValidInternal h

/-- Modelled from the spec: `Free()` "reporting free-list size" exists
only in the `handle_pool::` variant of the pool, whose code is not under
`src/` (only its tests call it). -/
def HandlePool.Free (p : HandlePool α) : Nat :=
  p.free_list.length

/-- Modelled from the spec: the `handle_pool::` variant's `Destroy`
"returns whether a live object was actually destroyed"; that variant's
code is not under `src/` (only its tests call it).  The state change is
the `src/` `HandlePool::Destroy` above; the boolean is the validity
check that guards it. -/
def HandlePool.DestroyB (p : HandlePool α) (h : Handle) : Bool × HandlePool α :=
  (p.IsValidInternal h, p.Destroy h)

/-- Embeds `HandlePool::Create` when the constructor of `T` may throw
(`ctor = .error ()`): the C++ body has no handler, so after
`free_list_.pop_back()` the exception propagates out of `Create` before
`in_use` is set; the `.error` carries the pool state observed after the
escape. -/
def HandlePool.CreateE (p : HandlePool α) (ctor : Except Unit α) :
    Except (HandlePool α) (Handle × HandlePool α) :=
  match p.free_list.getLast? with
  | none => .ok (Handle.Invalid, p)
  | some slot =>
    match ctor with
    | .error _ => .error { items := p.items, free_list := p.free_list.dropLast }
    | .ok v =>
      let item := p.items.getD slot (dItem α)
      let item' : Item α := { storage := some v, generation := item.generation, in_use := true }
      .ok ({ index := slot, generation := item.generation },
           { items := p.items.set slot item', free_list := p.free_list.dropLast })

/-- A pool operation that mutates state: `Create` with a payload, or
`Destroy` of a handle (`Get`/`IsValid` leave the state unchanged). -/
inductive Op (α : Type) where
  | create (v : α)
  | destroy (h : Handle)

/-- Apply one operation to the pool state. -/
def applyOp (op : Op α) (p : HandlePool α) : HandlePool α :=
  match op with
  | .create v => (p.Create v).2
  | .destroy h => p.Destroy h

/-- Apply a sequence of operations, oldest first. -/
def applyOps (ops : List (Op α)) (p : HandlePool α) : HandlePool α :=
  ops.foldl (fun q op => applyOp op q) p

/-- Run a sequence of `Create` calls, collecting the returned handles. -/
def createAll (vs : List α) (p : HandlePool α) : List Handle × HandlePool α :=
  match vs with
  | [] => ([], p)
  | v :: vs' =>
    let r := p.Create v
    let r2 := createAll vs' r.2
    (r.1 :: r2.1, r2.2)

/-- States reachable from a freshly constructed pool by `Create` and
`Destroy` calls. -/
def Reachable (p : HandlePool α) : Prop :=
  ∃ (n : Nat) (ops : List (Op α)), applyOps ops (HandlePool.init α n) = p

/-- Structural invariant of reachable pools: the free list has no
duplicates and every listed index is in range and not in use. -/
def Inv (p : HandlePool α) : Prop :=
  p.free_list.Nodup ∧
    ∀ i ∈ p.free_list, i < p.items.length ∧ (p.items.getD i (dItem α)).in_use = false

end mem_handle

namespace PoolM

/-- The constant `2^16`, the modulus of the `uint16_t` fields of `mem_handle.hpp`. -/
def U16 : Nat := 2 ^ 16

/-- The value `std::numeric_limits<uint16_t>::max()`, the sentinel index of the
16-bit `Handle` of `mem_handle.hpp`. -/
def sentinel16 : Nat := U16 - 1

/-- Embeds the `Handle` of `src/mem_handle.hpp`: two 16-bit bitfields. -/
structure Handle where
  index : Nat
  generation : Nat
deriving DecidableEq

/-- Embeds that `Handle::IsValid`: the index is not the 16-bit
sentinel. -/
def Handle.IsValid (h : Handle) : Bool :=
  h.index != sentinel16

/-- Embeds `Pool<T, kCapacity>` of `src/mem_handle.hpp`.  Its object
storage is `std::array<T, kCapacity>`, so every slot always holds a
constructed `T` (`objects.length = kCapacity` values, default-created
with the pool); there is no occupancy flag. -/
structure Pool (α : Type) where
  objects : List α
  generations : List Nat
  free_list : List Nat
deriving DecidableEq

/-- Embeds the `Pool()` constructor: the `std::array<T, kCapacity>`
member default-constructs `kCapacity` objects of `T` (so `T` must be
default-constructible, with value `d`); generations are filled with 0
and the free list gets every index in push order. -/
def Pool.init (n : Nat) (d : α) : Pool α :=
  { objects := List.replicate n d
    generations := List.replicate n 0
    free_list := List.range n }

/-- Embeds `capacity_` (`kCapacity`, the length of the generation array). -/
def Pool.capacity (p : Pool α) : Nat :=
  p.generations.length

/-- Embeds `Pool::IsValid`: syntactic validity, bounds check and
generation equality — there is no occupancy condition because this
variant tracks no occupancy. -/
def Pool.IsValid (p : Pool α) (h : Handle) : Bool :=
  if h.IsValid = false then false
  else if p.capacity ≤ h.index then false
  else p.generations.getD h.index 0 == h.generation

/-- The number of constructed `T` objects a pool state holds (the
`std::array<T, kCapacity>` member keeps all of them constructed). -/
def Pool.constructedCount (p : Pool α) : Nat :=
  p.objects.length

end PoolM

section helperLemmas

/-- Reading `List.set` through `List.getD`: the written value is read back
exactly at an in-range matching index; every other read is unchanged. -/
theorem list_getD_set {α : Type} (l : List α) (i j : Nat) (a d : α) :
    (l.set i a).getD j d = if i = j ∧ i < l.length then a else l.getD j d := by
  induction l generalizing i j with
  | nil => simp
  | cons x xs ih =>
    cases i with
    | zero =>
      cases j with
      | zero => simp
      | succ j' => simp
    | succ i' =>
      cases j with
      | zero => simp
      | succ j' =>
        have hset : (x :: xs).set (i' + 1) a = x :: xs.set i' a := rfl
        rw [hset, List.getD_cons_succ, List.getD_cons_succ, ih]
        by_cases h1 : i' = j' ∧ i' < xs.length
        · obtain ⟨he, hl⟩ := h1
          rw [if_pos ⟨he, hl⟩,
            if_pos ⟨by omega, by simp only [List.length_cons]; omega⟩]
        · have h2 : ¬(i' + 1 = j' + 1 ∧ i' + 1 < (x :: xs).length) := by
            rintro ⟨he, hl⟩
            simp only [List.length_cons] at hl
            exact h1 ⟨by omega, by omega⟩
          rw [if_neg h1, if_neg h2]

/-- Adding a positive amount smaller than the modulus never returns to
the same residue. -/
theorem add_mod_ne_self {g k M : Nat} (hg : g < M) (hk0 : 0 < k) (hkM : k < M) :
    (g + k) % M ≠ g := by
  intro hEq
  rcases Nat.lt_or_ge (g + k) M with hlt | hge
  · rw [Nat.mod_eq_of_lt hlt] at hEq
    omega
  · rw [Nat.mod_eq_sub_mod hge, Nat.mod_eq_of_lt (by omega)] at hEq
    omega

/-- The check `HandlePool.IsValidInternal` unfolded into its four conditions. -/
theorem isValidInternal_iff {α : Type} (p : mem_handle.HandlePool α) (h : mem_handle.Handle) :
    p.IsValidInternal h = true ↔
      h.IsValid = true ∧ h.index < p.Capacity ∧
        (p.items.getD h.index (mem_handle.dItem α)).in_use = true ∧
        (p.items.getD h.index (mem_handle.dItem α)).generation = h.generation := by
  simp only [mem_handle.HandlePool.IsValidInternal]
  split_ifs with h1 h2
  · simp [h1]
  · constructor
    · intro hc
      simp at hc
    · rintro ⟨-, hlt, -, -⟩
      omega
  · have h1' : h.IsValid = true := by simpa using h1
    have h2' : h.index < p.Capacity := by omega
    constructor
    · intro hc
      rw [Bool.and_eq_true, beq_iff_eq] at hc
      exact ⟨h1', h2', hc.1, hc.2⟩
    · rintro ⟨-, -, hu, hg⟩
      rw [Bool.and_eq_true, beq_iff_eq]
      exact ⟨hu, hg⟩

/-- The check `Pool.IsValid` of `mem_handle.hpp` unfolded into its three
conditions (this variant has no occupancy condition to check). -/
theorem pool_isValid_iff {α : Type} (p : PoolM.Pool α) (h : PoolM.Handle) :
    p.IsValid h = true ↔
      h.IsValid = true ∧ h.index < p.capacity ∧
        p.generations.getD h.index 0 = h.generation := by
  simp only [PoolM.Pool.IsValid]
  split_ifs with h1 h2
  · simp [h1]
  · constructor
    · intro hc
      simp at hc
    · rintro ⟨-, hlt, -⟩
      omega
  · have h1' : h.IsValid = true := by simpa using h1
    have h2' : h.index < p.capacity := by omega
    rw [beq_iff_eq]
    constructor
    · intro hg
      exact ⟨h1', h2', hg⟩
    · rintro ⟨-, -, hg⟩
      exact hg

end helperLemmas

section claim1

/-- Claim C1 counterexample: in the `Pool` variant of
`src/mem_handle.hpp` the validity check used by `Destroy`, `Get` and
`IsValid` accepts the handle `(0, 0)` on a freshly constructed
capacity-2 pool, although slot 0 is still on the free list (no `Create`
ever occurred, so no slot is occupied) — the "slot is marked occupied"
condition of the claim is not checked by this variant, so the check is
not the claimed four-way conjunction for every pool. -/
theorem claim1_counterexample :
    (PoolM.Pool.init 2 (0 : Nat)).IsValid { index := 0, generation := 0 } = true ∧
      0 ∈ (PoolM.Pool.init 2 (0 : Nat)).free_list := by
  decide

/-- Claim C1 (amended): for `HandlePool` of `src/handle_pool/handle_pool.h`
the validity check used by `Destroy`, `Get` and `IsValid` returns true
iff all four conditions hold (syntactic validity, index in range, slot
occupied, generation match), never faulting; the `Pool` variant of
`src/mem_handle.hpp` tracks no occupancy and its check is the iff of the
remaining three conditions only. -/
theorem claim1_validity_conditions (α : Type) :
    (∀ (p : mem_handle.HandlePool α) (h : mem_handle.Handle),
        p.IsValidInternal h = true ↔
          h.IsValid = true ∧ h.index < p.Capacity ∧
            (p.items.getD h.index (mem_handle.dItem α)).in_use = true ∧
            (p.items.getD h.index (mem_handle.dItem α)).generation = h.generation) ∧
    (∀ (p : PoolM.Pool α) (h : PoolM.Handle),
        p.IsValid h = true ↔
          h.IsValid = true ∧ h.index < p.capacity ∧
            p.generations.getD h.index 0 = h.generation) :=
  ⟨fun p h => isValidInternal_iff p h, fun p h => pool_isValid_iff p h⟩

/-- Witness for the C1 theorem at a concrete input: after one `Create`
on a capacity-1 `HandlePool`, the handle `(0, 0)` satisfies the four
conditions, so the check accepts it. -/
theorem claim1_validity_conditions_witness :
    ((mem_handle.HandlePool.init Nat 1).Create 7).2.IsValidInternal
      { index := 0, generation := 0 } = true :=
  ((claim1_validity_conditions Nat).1 _ _).mpr
    ⟨by decide, by decide, by decide, by decide⟩

end claim1

section claim7

/-- Claim C7 (code bug): `HandlePool::Create` pops the free list before
constructing `T` and has no handler, so when `T`'s constructor throws
the exception escapes with the reserved index (here slot 1 of a fresh
capacity-2 pool) gone from the free list and never returned — the pool
state is not "exactly as it was before the call", the slot is leaked,
and no sentinel handle is returned. -/
theorem claim7_ctor_failure_leaks_slot :
    (mem_handle.HandlePool.init Nat 2).CreateE (Except.error ()) =
      Except.error
        { items := (mem_handle.HandlePool.init Nat 2).items, free_list := [0] } ∧
    ({ items := (mem_handle.HandlePool.init Nat 2).items, free_list := [0] } :
        mem_handle.HandlePool Nat) ≠
      mem_handle.HandlePool.init Nat 2 := by
  constructor
  · rfl
  · decide

end claim7

section claim9

/-- Claim C9 counterexample: constructing the `Pool<T, 2>` of
`src/mem_handle.hpp` already holds 2 constructed `T` objects — its
object storage is a `std::array<T, kCapacity>`, whose elements are
default-constructed with the pool — so pool construction does not
construct zero objects of type `T`. -/
theorem claim9_counterexample :
    (PoolM.Pool.init 2 (0 : Nat)).constructedCount ≠ 0 := by
  decide

/-- Claim C9 (amended): a freshly constructed `HandlePool` holds no
constructed `T` (every slot empty with generation zero) and its free
list is every index in ascending order, and `Destroy` never makes a
slot's storage live (only a successful `Create` does); the `Pool`
variant of `mem_handle.hpp`, however, default-constructs `kCapacity`
objects of `T` at pool construction (its generations still start at
zero and its free list is every index ascending). -/
theorem claim9_init_state (α : Type) (n : Nat) (d : α) :
    (∀ i, i < n →
        (mem_handle.HandlePool.init α n).items.getD i (mem_handle.dItem α) =
          { storage := none, generation := 0, in_use := false }) ∧
    (mem_handle.HandlePool.init α n).free_list = List.range n ∧
    List.Pairwise (· < ·) (mem_handle.HandlePool.init α n).free_list ∧
    (PoolM.Pool.init n d).constructedCount = n ∧
    (∀ i, (PoolM.Pool.init n d).generations.getD i 0 = 0) ∧
    (PoolM.Pool.init n d).free_list = List.range n ∧
    (∀ (p : mem_handle.HandlePool α) (h : mem_handle.Handle) (j : Nat),
        ((p.Destroy h).items.getD j (mem_handle.dItem α)).storage ≠ none →
          (p.items.getD j (mem_handle.dItem α)).storage ≠ none) := by
  refine ⟨?_, rfl, ?_, ?_, ?_, rfl, ?_⟩
  · intro i hi
    simp [mem_handle.HandlePool.init, List.getD_eq_getElem?_getD,
      List.getElem?_replicate, hi, mem_handle.dItem]
  · exact List.pairwise_lt_range n
  · simp [PoolM.Pool.init, PoolM.Pool.constructedCount]
  · intro i
    rcases Nat.lt_or_ge i n with hi | hi
    · simp [PoolM.Pool.init, List.getD_eq_getElem?_getD, List.getElem?_replicate, hi]
    · apply List.getD_eq_default
      simp [PoolM.Pool.init, hi]
  · intro p h j hlive
    unfold mem_handle.HandlePool.Destroy at hlive
    split_ifs at hlive with hv
    · rw [list_getD_set] at hlive
      split_ifs at hlive with hj
      · simp at hlive
      · exact hlive
    · exact hlive

end claim9

/-- Witness for the C9 theorem at a concrete input: slot 0 of a fresh
capacity-2 `HandlePool` is empty with generation zero, while the fresh
capacity-2 `Pool` of `mem_handle.hpp` already holds 2 constructed
objects. -/
theorem claim9_init_state_witness :
    (mem_handle.HandlePool.init Nat 2).items.getD 0 (mem_handle.dItem Nat) =
      { storage := none, generation := 0, in_use := false } ∧
    (PoolM.Pool.init 2 (5 : Nat)).constructedCount = 2 :=
  ⟨(claim9_init_state Nat 2 5).1 0 (by decide),
    (claim9_init_state Nat 2 5).2.2.2.1⟩

section moreHelpers

/-- A list whose `getLast?` is `some a` is its own `dropLast` followed
by `a`. -/
theorem getLast_concat_decomp {α : Type} {l : List α} {a : α}
    (h : l.getLast? = some a) : l = l.dropLast ++ [a] := by
  rcases List.eq_nil_or_concat l with rfl | ⟨L, b, hLb⟩
  · simp at h
  · rw [List.concat_eq_append] at hLb
    subst hLb
    rw [List.getLast?_concat] at h
    injection h with h
    subst h
    rw [List.dropLast_concat]

/-- The last element of a list is a member. -/
theorem mem_of_getLast_eq {α : Type} {l : List α} {a : α}
    (h : l.getLast? = some a) : a ∈ l := by
  rw [getLast_concat_decomp h]
  simp

/-- A false `IsValidInternal` makes `Destroy` the identity. -/
theorem destroy_noop {α : Type} {p : mem_handle.HandlePool α} {h : mem_handle.Handle}
    (hv : p.IsValidInternal h ≠ true) : p.Destroy h = p := by
  have hv' : p.IsValidInternal h = false := by
    revert hv
    cases p.IsValidInternal h <;> simp
  simp [mem_handle.HandlePool.Destroy, hv']

/-- What `Destroy` does on a handle that passes the check: the slot is
cleared, its generation bumped modulo `2^32`, the index pushed on the
free list. -/
theorem destroy_eq {α : Type} {p : mem_handle.HandlePool α} {h : mem_handle.Handle}
    (hv : p.IsValidInternal h = true) :
    p.Destroy h =
      { items := p.items.set h.index
          { storage := none
            generation := ((p.items.getD h.index (mem_handle.dItem α)).generation + 1) % mem_handle.U32
            in_use := false }
        free_list := p.free_list ++ [h.index] } := by
  simp [mem_handle.HandlePool.Destroy, hv]

/-- Destroying a valid handle and creating immediately after reuses the
destroyed handle's slot, with the bumped generation. -/
theorem destroy_create_reuse {α : Type} (p : mem_handle.HandlePool α)
    (h : mem_handle.Handle) (v : α) (hv : p.IsValidInternal h = true) :
    ((p.Destroy h).Create v).1.index = h.index ∧
      ((p.Destroy h).Create v).1.generation = (h.generation + 1) % mem_handle.U32 := by
  obtain ⟨-, hlt, -, hgen⟩ := (isValidInternal_iff p h).mp hv
  have hlen : h.index < p.items.length := hlt
  have hlast : (p.Destroy h).free_list.getLast? = some h.index := by
    rw [destroy_eq hv]
    exact List.getLast?_concat _
  have hgenD : ((p.Destroy h).items.getD h.index (mem_handle.dItem α)).generation =
      (h.generation + 1) % mem_handle.U32 := by
    rw [destroy_eq hv]
    show ((p.items.set h.index _).getD h.index (mem_handle.dItem α)).generation = _
    rw [list_getD_set, if_pos ⟨rfl, hlen⟩, hgen]
  constructor
  · simp [mem_handle.HandlePool.Create, hlast]
  · simp [mem_handle.HandlePool.Create, hlast]
    simpa using hgenD

end moreHelpers

section claim2

/-- Claim C2: `Destroy` returns true exactly when a live object was
destroyed (the addressed slot was in use before the call and is not
afterwards), and a false return means the call was a complete no-op on
the pool state, so double-destroy and destroy-of-a-stale-handle are
safe.  The boolean result is the spec-modelled return of the
`handle_pool::` variant (`DestroyB`); the state change is the `src/`
`HandlePool::Destroy`. -/
theorem claim2_destroy_result (α : Type) (p : mem_handle.HandlePool α)
    (h : mem_handle.Handle) :
    ((p.DestroyB h).1 = true ↔
        (p.items.getD h.index (mem_handle.dItem α)).in_use = true ∧
          ((p.DestroyB h).2.items.getD h.index (mem_handle.dItem α)).in_use = false) ∧
      ((p.DestroyB h).1 = false → (p.DestroyB h).2 = p) := by
  have hfst : (p.DestroyB h).1 = p.IsValidInternal h := rfl
  have hsnd : (p.DestroyB h).2 = p.Destroy h := rfl
  by_cases hv : p.IsValidInternal h = true
  · obtain ⟨-, hlt, hu, -⟩ := (isValidInternal_iff p h).mp hv
    have hlen : h.index < p.items.length := hlt
    have hafter : ((p.Destroy h).items.getD h.index (mem_handle.dItem α)).in_use = false := by
      rw [destroy_eq hv]
      show ((p.items.set h.index _).getD h.index (mem_handle.dItem α)).in_use = _
      rw [list_getD_set, if_pos ⟨rfl, hlen⟩]
    refine ⟨⟨fun _ => ⟨hu, by rw [hsnd]; exact hafter⟩, fun _ => by rw [hfst]; exact hv⟩,
      fun hfalse => ?_⟩
    rw [hfst, hv] at hfalse
    simp at hfalse
  · have hnoop : p.Destroy h = p := destroy_noop hv
    refine ⟨⟨fun htrue => ?_, fun hconj => ?_⟩, fun _ => by rw [hsnd, hnoop]⟩
    · rw [hfst] at htrue
      exact absurd htrue hv
    · obtain ⟨hu, hnu⟩ := hconj
      rw [hsnd, hnoop, hu] at hnu
      simp at hnu

/-- Witness for the C2 theorem at a concrete input: destroying the
never-issued handle `(0, 3)` on a fresh capacity-2 pool is a no-op. -/
theorem claim2_destroy_result_witness :
    ((mem_handle.HandlePool.init Nat 2).DestroyB { index := 0, generation := 3 }).2 =
      mem_handle.HandlePool.init Nat 2 :=
  (claim2_destroy_result Nat (mem_handle.HandlePool.init Nat 2)
      { index := 0, generation := 3 }).2 (by decide)

end claim2

section claim5

/-- Claim C5: after a successful `Destroy(h)` the immediately following
`Create` reuses the freed slot: the returned handle has the same index
and generation `h.generation + 1`, strictly greater than the destroyed
handle's (the hypothesis `h.generation + 1 < 2^32` is the claim's
"barring generation overflow" proviso). -/
theorem claim5_slot_reuse (α : Type) (p : mem_handle.HandlePool α)
    (h : mem_handle.Handle) (v : α)
    (hv : p.IsValidInternal h = true)
    (hg : h.generation + 1 < mem_handle.U32) :
    ((p.Destroy h).Create v).1.index = h.index ∧
      ((p.Destroy h).Create v).1.generation = h.generation + 1 ∧
      h.generation < ((p.Destroy h).Create v).1.generation := by
  obtain ⟨hidx, hgen⟩ := destroy_create_reuse p h v hv
  rw [Nat.mod_eq_of_lt hg] at hgen
  exact ⟨hidx, hgen, by omega⟩

/-- Witness for the C5 theorem at a concrete input: on a capacity-1
pool, create, destroy, create again — the second handle is `(0, 1)`. -/
theorem claim5_slot_reuse_witness :
    (((mem_handle.HandlePool.init Nat 1).Create 3).2.IsValidInternal
        { index := 0, generation := 0 } = true) ∧
      ((0 : Nat) + 1 < mem_handle.U32) ∧
      (((((mem_handle.HandlePool.init Nat 1).Create 3).2.Destroy
            { index := 0, generation := 0 }).Create 9).1.index = 0 ∧
        ((((mem_handle.HandlePool.init Nat 1).Create 3).2.Destroy
            { index := 0, generation := 0 }).Create 9).1.generation = 0 + 1 ∧
        0 < ((((mem_handle.HandlePool.init Nat 1).Create 3).2.Destroy
            { index := 0, generation := 0 }).Create 9).1.generation) :=
  ⟨by decide, by decide,
    claim5_slot_reuse Nat ((mem_handle.HandlePool.init Nat 1).Create 3).2
      { index := 0, generation := 0 } 9 (by decide) (by decide)⟩

end claim5

section createAllLemmas

/-- Running `Create` `vs.length` times on a pool whose free list is
`0, ..., m-1` leaves the free list `0, ..., m - vs.length - 1` and hands
out the slot indices `m-1, m-2, ...` in strictly descending order. -/
theorem createAll_spec (α : Type) (vs : List α) :
    ∀ (p : mem_handle.HandlePool α) (m : Nat),
      p.free_list = List.range m → vs.length ≤ m →
      ((mem_handle.createAll vs p).2.free_list = List.range (m - vs.length)) ∧
        ((mem_handle.createAll vs p).1.map mem_handle.Handle.index =
          (List.range vs.length).map (fun i => m - 1 - i)) := by
  induction vs with
  | nil =>
    intro p m hfl hlen
    constructor
    · simpa using hfl
    · simp [mem_handle.createAll]
  | cons v vs ih =>
    intro p m hfl hlen
    obtain ⟨m', rfl⟩ : ∃ m', m = m' + 1 := ⟨m - 1, by simp at hlen; omega⟩
    have hlast : p.free_list.getLast? = some m' := by
      rw [hfl, List.range_succ]
      exact List.getLast?_concat _
    have hdrop : p.free_list.dropLast = List.range m' := by
      rw [hfl, List.range_succ]
      exact List.dropLast_concat
    have hstep : (p.Create v).2.free_list = List.range m' := by
      simp [mem_handle.HandlePool.Create, hlast, hdrop]
    have hfirst : (p.Create v).1.index = m' := by
      simp [mem_handle.HandlePool.Create, hlast]
    have hlen' : vs.length ≤ m' := by
      simp at hlen
      omega
    obtain ⟨hfl', hmap⟩ := ih (p.Create v).2 m' hstep hlen'
    have hpair : mem_handle.createAll (v :: vs) p =
        ((p.Create v).1 :: (mem_handle.createAll vs (p.Create v).2).1,
          (mem_handle.createAll vs (p.Create v).2).2) := rfl
    constructor
    · rw [hpair, hfl']
      congr 1
      simp
    · rw [hpair]
      show (p.Create v).1.index ::
          (mem_handle.createAll vs (p.Create v).2).1.map mem_handle.Handle.index =
        (List.range (vs.length + 1)).map (fun i => m' + 1 - 1 - i)
      rw [hfirst, hmap, List.range_succ_eq_map, List.map_cons, List.map_map]
      have hfun : ((fun i : Nat => m' + 1 - 1 - i) ∘ Nat.succ) =
          (fun i : Nat => m' - 1 - i) := by
        funext i
        simp only [Function.comp_apply]
        omega
      rw [hfun]
      norm_num

end createAllLemmas

section claim6

/-- Claim C6: on a fresh pool of capacity `n`, `n` `Create` calls all
succeed (each returned handle is non-sentinel); afterwards `Free()`
reports 0 and a further `Create` returns the sentinel handle
(`Free()` is the spec-modelled accessor of the `handle_pool::`
variant). -/
theorem claim6_capacity_bound (α : Type) (n : Nat) (vs : List α) (v : α)
    (hlen : vs.length = n) (hn : n < mem_handle.U32) :
    (∀ h ∈ (mem_handle.createAll vs (mem_handle.HandlePool.init α n)).1,
        h.IsValid = true) ∧
      (mem_handle.createAll vs (mem_handle.HandlePool.init α n)).2.Free = 0 ∧
      ((mem_handle.createAll vs (mem_handle.HandlePool.init α n)).2.Create v).1 =
        mem_handle.Handle.Invalid := by
  obtain ⟨hfl, hmap⟩ :=
    createAll_spec α vs (mem_handle.HandlePool.init α n) n rfl (by omega)
  have hempty : (mem_handle.createAll vs (mem_handle.HandlePool.init α n)).2.free_list = [] := by
    rw [hfl, hlen]
    simp
  refine ⟨?_, ?_, ?_⟩
  · intro h hmem
    have hidx : h.index ∈
        (mem_handle.createAll vs (mem_handle.HandlePool.init α n)).1.map
          mem_handle.Handle.index :=
      List.mem_map_of_mem _ hmem
    rw [hmap] at hidx
    obtain ⟨i, hi, hfi⟩ := List.mem_map.mp hidx
    rw [List.mem_range] at hi
    have hU : mem_handle.U32 = 4294967296 := by norm_num [mem_handle.U32]
    have hs : mem_handle.sentinel = 4294967295 := by
      norm_num [mem_handle.sentinel, mem_handle.U32]
    have hne : h.index ≠ mem_handle.sentinel := by
      rw [← hfi, hs]
      rw [hU] at hn
      omega
    rw [mem_handle.Handle.IsValid, bne_iff_ne]
    exact hne
  · show (mem_handle.createAll vs (mem_handle.HandlePool.init α n)).2.free_list.length = 0
    rw [hempty]
    rfl
  · simp [mem_handle.HandlePool.Create, hempty]

/-- Witness for the C6 theorem at a concrete input: a capacity-2 pool
after two creates has `Free() = 0` and a third create returns the
sentinel handle. -/
theorem claim6_capacity_bound_witness :
    (([10, 20] : List Nat).length = 2) ∧ (2 < mem_handle.U32) ∧
      ((mem_handle.createAll [10, 20] (mem_handle.HandlePool.init Nat 2)).2.Free = 0) ∧
      (((mem_handle.createAll [10, 20] (mem_handle.HandlePool.init Nat 2)).2.Create 30).1 =
        mem_handle.Handle.Invalid) :=
  ⟨rfl, by decide,
    (claim6_capacity_bound Nat 2 [10, 20] 30 rfl (by decide)).2.1,
    (claim6_capacity_bound Nat 2 [10, 20] 30 rfl (by decide)).2.2⟩

end claim6

section claim10

/-- Claim C10: on a fresh pool of capacity `n`, the handles returned by
successive `Create` calls carry the strictly descending slot indices
`n-1, n-2, ...` (the free list is initialized ascending and consumed
from the back), and after a successful `Destroy` the next `Create`
reuses the most recently freed index. -/
theorem claim10_lifo_order (α : Type) (n k : Nat) (vs : List α)
    (hlen : vs.length = k) (hkn : k ≤ n) :
    ((mem_handle.createAll vs (mem_handle.HandlePool.init α n)).1.map
        mem_handle.Handle.index =
      (List.range k).map (fun i => n - 1 - i)) ∧
    (∀ (p : mem_handle.HandlePool α) (h : mem_handle.Handle) (v : α),
        p.IsValidInternal h = true →
          ((p.Destroy h).Create v).1.index = h.index) := by
  constructor
  · have hmap :=
      (createAll_spec α vs (mem_handle.HandlePool.init α n) n rfl (by omega)).2
    rw [hlen] at hmap
    exact hmap
  · intro p h v hv
    exact (destroy_create_reuse p h v hv).1

/-- Witness for the C10 theorem at a concrete input: two creates on a
fresh capacity-3 pool return slot indices 2 then 1. -/
theorem claim10_lifo_order_witness :
    (mem_handle.createAll [5, 6] (mem_handle.HandlePool.init Nat 3)).1.map
        mem_handle.Handle.index =
      (List.range 2).map (fun i => 3 - 1 - i) :=
  (claim10_lifo_order Nat 3 2 [5, 6] rfl (by decide)).1

end claim10

section generationLemmas

/-- One pool operation leaves a slot's generation unchanged or bumps it
by one modulo `2^32` (`Create` never touches generations; `Destroy`
bumps exactly the destroyed slot's). -/
theorem gen_applyOp (α : Type) (op : mem_handle.Op α) (q : mem_handle.HandlePool α)
    (j : Nat) :
    ((mem_handle.applyOp op q).items.getD j (mem_handle.dItem α)).generation =
        (q.items.getD j (mem_handle.dItem α)).generation ∨
      ((mem_handle.applyOp op q).items.getD j (mem_handle.dItem α)).generation =
        ((q.items.getD j (mem_handle.dItem α)).generation + 1) % mem_handle.U32 := by
  cases op with
  | create v =>
    rcases hl : q.free_list.getLast? with _ | slot
    · left
      simp [mem_handle.applyOp, mem_handle.HandlePool.Create, hl]
    · left
      show (((q.Create v).2.items.getD j (mem_handle.dItem α)).generation) = _
      have hitems : (q.Create v).2.items = q.items.set slot
          { storage := some v
            generation := (q.items.getD slot (mem_handle.dItem α)).generation
            in_use := true } := by
        simp [mem_handle.HandlePool.Create, hl]
      rw [hitems, list_getD_set]
      split_ifs with hc
      · obtain ⟨rfl, -⟩ := hc
        rfl
      · rfl
  | destroy h =>
    by_cases hv : q.IsValidInternal h = true
    · have hitems : (q.Destroy h).items = q.items.set h.index
          { storage := none
            generation :=
              ((q.items.getD h.index (mem_handle.dItem α)).generation + 1) % mem_handle.U32
            in_use := false } := by
        rw [destroy_eq hv]
      show (((q.Destroy h).items.getD j (mem_handle.dItem α)).generation) =
          ((q.items.getD j (mem_handle.dItem α)).generation) ∨
        (((q.Destroy h).items.getD j (mem_handle.dItem α)).generation) =
          (((q.items.getD j (mem_handle.dItem α)).generation) + 1) % mem_handle.U32
      rw [hitems, list_getD_set]
      split_ifs with hc
      · right
        obtain ⟨rfl, -⟩ := hc
        rfl
      · left
        rfl
    · left
      show (((q.Destroy h).items.getD j (mem_handle.dItem α)).generation) = _
      rw [destroy_noop hv]

/-- Across any operation sequence a slot's generation advances by some
`d ≤ length` steps modulo `2^32`. -/
theorem gen_applyOps (α : Type) (ops : List (mem_handle.Op α)) :
    ∀ (q : mem_handle.HandlePool α) (j c : Nat),
      (q.items.getD j (mem_handle.dItem α)).generation = c % mem_handle.U32 →
      ∃ d, d ≤ ops.length ∧
        ((mem_handle.applyOps ops q).items.getD j (mem_handle.dItem α)).generation =
          (c + d) % mem_handle.U32 := by
  induction ops with
  | nil =>
    intro q j c hq
    exact ⟨0, Nat.le_refl 0, by simpa using hq⟩
  | cons op ops ih =>
    intro q j c hq
    have hstep : mem_handle.applyOps (op :: ops) q =
        mem_handle.applyOps ops (mem_handle.applyOp op q) := rfl
    rcases gen_applyOp α op q j with hsame | hinc
    · obtain ⟨d, hd, hg⟩ := ih (mem_handle.applyOp op q) j c (hsame.trans hq)
      exact ⟨d, Nat.le_succ_of_le hd, by rw [hstep]; exact hg⟩
    · have hq' : ((mem_handle.applyOp op q).items.getD j (mem_handle.dItem α)).generation =
          (c + 1) % mem_handle.U32 := by
        rw [hinc, hq, Nat.mod_add_mod]
      obtain ⟨d, hd, hg⟩ := ih (mem_handle.applyOp op q) j (c + 1) hq'
      refine ⟨d + 1, by simpa using Nat.succ_le_succ hd, ?_⟩
      rw [hstep, hg]
      congr 1
      omega

end generationLemmas

section claim4

/-- Claim C4: once `Destroy(h)` succeeds, `IsValid(h)` is false and
`Get(h)` is empty after every subsequent operation sequence — slot reuse
by later `Create`s included — as long as generation overflow cannot
occur (fewer than `2^32 - 1` subsequent operations, so the destroyed
slot's `uint32_t` generation cannot wrap back to `h.generation`). -/
theorem claim4_stale_rejection (α : Type) (p : mem_handle.HandlePool α)
    (h : mem_handle.Handle) (ops : List (mem_handle.Op α))
    (hv : p.IsValidInternal h = true)
    (hg : h.generation < mem_handle.U32)
    (hops : ops.length < mem_handle.U32 - 1) :
    (mem_handle.applyOps ops (p.Destroy h)).IsValidP h = false ∧
      (mem_handle.applyOps ops (p.Destroy h)).Get h = none := by
  obtain ⟨-, hlt, -, hgen⟩ := (isValidInternal_iff p h).mp hv
  have hlen : h.index < p.items.length := hlt
  have h1 : ((p.Destroy h).items.getD h.index (mem_handle.dItem α)).generation =
      (h.generation + 1) % mem_handle.U32 := by
    rw [destroy_eq hv]
    show ((p.items.set h.index _).getD h.index (mem_handle.dItem α)).generation = _
    rw [list_getD_set, if_pos ⟨rfl, hlen⟩, hgen]
  obtain ⟨d, hd, hgenF⟩ :=
    gen_applyOps α ops (p.Destroy h) h.index (h.generation + 1) h1
  have hne : ((mem_handle.applyOps ops (p.Destroy h)).items.getD h.index
      (mem_handle.dItem α)).generation ≠ h.generation := by
    rw [hgenF, show h.generation + 1 + d = h.generation + (1 + d) by omega]
    exact add_mod_ne_self hg (by omega) (by omega)
  have hvalidF : (mem_handle.applyOps ops (p.Destroy h)).IsValidInternal h = false := by
    cases hb : (mem_handle.applyOps ops (p.Destroy h)).IsValidInternal h with
    | false => rfl
    | true => exact absurd ((isValidInternal_iff _ h).mp hb).2.2.2 hne
  refine ⟨hvalidF, ?_⟩
  simp [mem_handle.HandlePool.Get, hvalidF]

/-- Witness for the C4 theorem at a concrete input: create on a
capacity-2 pool, destroy the handle, then create twice more (reusing the
slot) — the destroyed handle stays invalid and `Get` stays empty. -/
theorem claim4_stale_rejection_witness :
    (((mem_handle.HandlePool.init Nat 2).Create 10).2.IsValidInternal
        { index := 1, generation := 0 } = true) ∧
      ((0 : Nat) < mem_handle.U32) ∧
      (([mem_handle.Op.create 7, mem_handle.Op.create 8] :
          List (mem_handle.Op Nat)).length < mem_handle.U32 - 1) ∧
      ((mem_handle.applyOps [mem_handle.Op.create 7, mem_handle.Op.create 8]
          (((mem_handle.HandlePool.init Nat 2).Create 10).2.Destroy
            { index := 1, generation := 0 })).IsValidP
          { index := 1, generation := 0 } = false ∧
        (mem_handle.applyOps [mem_handle.Op.create 7, mem_handle.Op.create 8]
          (((mem_handle.HandlePool.init Nat 2).Create 10).2.Destroy
            { index := 1, generation := 0 })).Get
          { index := 1, generation := 0 } = none) :=
  ⟨by decide, by decide, by decide,
    claim4_stale_rejection Nat ((mem_handle.HandlePool.init Nat 2).Create 10).2
      { index := 1, generation := 0 } [mem_handle.Op.create 7, mem_handle.Op.create 8]
      (by decide) (by decide) (by decide)⟩

end claim4

section invariantLemmas

/-- A fresh pool satisfies the free-list invariant. -/
theorem inv_init (α : Type) (n : Nat) : mem_handle.Inv (mem_handle.HandlePool.init α n) := by
  constructor
  · exact List.nodup_range n
  · intro i hi
    have hi' : i < n := by
      have : (mem_handle.HandlePool.init α n).free_list = List.range n := rfl
      rw [this, List.mem_range] at hi
      exact hi
    constructor
    · simpa [mem_handle.HandlePool.init] using hi'
    · simp [mem_handle.HandlePool.init, List.getD_eq_getElem?_getD,
        List.getElem?_replicate, hi', mem_handle.dItem]

/-- Every `Create`/`Destroy` step preserves the free-list invariant. -/
theorem inv_applyOp (α : Type) (op : mem_handle.Op α) (p : mem_handle.HandlePool α)
    (hinv : mem_handle.Inv p) : mem_handle.Inv (mem_handle.applyOp op p) := by
  obtain ⟨hnd, hmem⟩ := hinv
  cases op with
  | create v =>
    rcases hl : p.free_list.getLast? with _ | slot
    · have : (p.Create v).2 = p := by
        simp [mem_handle.HandlePool.Create, hl]
      show mem_handle.Inv (p.Create v).2
      rw [this]
      exact ⟨hnd, hmem⟩
    · have hsplit : p.free_list = p.free_list.dropLast ++ [slot] :=
        getLast_concat_decomp hl
      have hslotmem : slot ∈ p.free_list := mem_of_getLast_eq hl
      have hnotin : slot ∉ p.free_list.dropLast := by
        intro hin
        rw [hsplit, List.nodup_append] at hnd
        exact hnd.2.2 hin (by simp)
      obtain ⟨hslotlen, -⟩ := hmem slot hslotmem
      have hfl2 : (p.Create v).2.free_list = p.free_list.dropLast := by
        simp [mem_handle.HandlePool.Create, hl]
      have hitems : (p.Create v).2.items = p.items.set slot
          { storage := some v
            generation := (p.items.getD slot (mem_handle.dItem α)).generation
            in_use := true } := by
        simp [mem_handle.HandlePool.Create, hl]
      show mem_handle.Inv (p.Create v).2
      constructor
      · rw [hfl2]
        exact (List.dropLast_sublist p.free_list).nodup hnd
      · intro i hi
        rw [hfl2] at hi
        have hiold : i ∈ p.free_list := by
          rw [hsplit]
          exact List.mem_append.mpr (Or.inl hi)
        obtain ⟨hilen, hiuse⟩ := hmem i hiold
        constructor
        · rw [hitems, List.length_set]
          exact hilen
        · rw [hitems, list_getD_set, if_neg ?_]
          · exact hiuse
          · rintro ⟨rfl, -⟩
            exact hnotin hi
  | destroy h =>
    by_cases hv : p.IsValidInternal h = true
    · obtain ⟨-, hlt, huse, -⟩ := (isValidInternal_iff p h).mp hv
      have hlen : h.index < p.items.length := hlt
      have hnot : h.index ∉ p.free_list := by
        intro hin
        obtain ⟨-, hfalse⟩ := hmem h.index hin
        rw [huse] at hfalse
        exact Bool.noConfusion hfalse
      have hfl2 : (p.Destroy h).free_list = p.free_list ++ [h.index] := by
        rw [destroy_eq hv]
      have hitems : (p.Destroy h).items = p.items.set h.index
          { storage := none
            generation :=
              ((p.items.getD h.index (mem_handle.dItem α)).generation + 1) % mem_handle.U32
            in_use := false } := by
        rw [destroy_eq hv]
      show mem_handle.Inv (p.Destroy h)
      constructor
      · rw [hfl2, List.nodup_append]
        refine ⟨hnd, by simp, ?_⟩
        intro a ha hb
        have : a = h.index := by simpa using hb
        subst this
        exact hnot ha
      · intro i hi
        rw [hfl2] at hi
        rcases List.mem_append.mp hi with hiold | hinew
        · obtain ⟨hilen, hiuse⟩ := hmem i hiold
          refine ⟨by rw [hitems, List.length_set]; exact hilen, ?_⟩
          rw [hitems, list_getD_set, if_neg ?_]
          · exact hiuse
          · rintro ⟨rfl, -⟩
            exact hnot hiold
        · have : i = h.index := by simpa using hinew
          subst this
          refine ⟨by rw [hitems, List.length_set]; exact hlen, ?_⟩
          rw [hitems, list_getD_set, if_pos ⟨rfl, hlen⟩]
    · show mem_handle.Inv (p.Destroy h)
      rw [destroy_noop hv]
      exact ⟨hnd, hmem⟩

/-- The invariant holds after any operation sequence that starts from an
invariant state. -/
theorem inv_applyOps (α : Type) (ops : List (mem_handle.Op α)) :
    ∀ (p : mem_handle.HandlePool α), mem_handle.Inv p →
      mem_handle.Inv (mem_handle.applyOps ops p) := by
  induction ops with
  | nil => intro p hp; exact hp
  | cons op ops ih =>
    intro p hp
    exact ih (mem_handle.applyOp op p) (inv_applyOp α op p hp)

/-- Every reachable pool state satisfies the free-list invariant. -/
theorem reachable_inv {α : Type} {p : mem_handle.HandlePool α}
    (hr : mem_handle.Reachable p) : mem_handle.Inv p := by
  obtain ⟨n, ops, rfl⟩ := hr
  exact inv_applyOps α ops _ (inv_init α n)

end invariantLemmas

section claim8

/-- Claim C8: on any reachable pool with a non-empty free list, `Create`
flips exactly the popped slot (the back of the free list) from empty to
occupied, changes no slot's generation, leaves every other slot
untouched, and returns a handle carrying the chosen slot's current,
unchanged generation. -/
theorem claim8_create_frame (α : Type) (p : mem_handle.HandlePool α) (v : α)
    (hr : mem_handle.Reachable p) (hne : p.free_list ≠ []) :
    ((p.items.getD (p.Create v).1.index (mem_handle.dItem α)).in_use = false) ∧
      (((p.Create v).2.items.getD (p.Create v).1.index (mem_handle.dItem α)).in_use = true) ∧
      (∀ j, ((p.Create v).2.items.getD j (mem_handle.dItem α)).generation =
          (p.items.getD j (mem_handle.dItem α)).generation) ∧
      (∀ j, j ≠ (p.Create v).1.index →
          (p.Create v).2.items.getD j (mem_handle.dItem α) =
            p.items.getD j (mem_handle.dItem α)) ∧
      ((p.Create v).1.generation =
        (p.items.getD (p.Create v).1.index (mem_handle.dItem α)).generation) ∧
      (p.free_list.getLast? = some (p.Create v).1.index) := by
  obtain ⟨hnd, hmem⟩ := reachable_inv hr
  obtain ⟨slot, hl⟩ : ∃ slot, p.free_list.getLast? = some slot := by
    cases hfl : p.free_list.getLast? with
    | none => exact absurd (List.getLast?_eq_none_iff.mp hfl) hne
    | some s => exact ⟨s, rfl⟩
  obtain ⟨hslotlen, hslotuse⟩ := hmem slot (mem_of_getLast_eq hl)
  have hidx : (p.Create v).1.index = slot := by
    simp [mem_handle.HandlePool.Create, hl]
  have hitems : (p.Create v).2.items = p.items.set slot
      { storage := some v
        generation := (p.items.getD slot (mem_handle.dItem α)).generation
        in_use := true } := by
    simp [mem_handle.HandlePool.Create, hl]
  have hgen : (p.Create v).1.generation =
      (p.items.getD slot (mem_handle.dItem α)).generation := by
    simp [mem_handle.HandlePool.Create, hl, List.getD_eq_getElem?_getD]
  refine ⟨?_, ?_, ?_, ?_, ?_, ?_⟩
  · rw [hidx]
    exact hslotuse
  · rw [hidx, hitems, list_getD_set, if_pos ⟨rfl, hslotlen⟩]
  · intro j
    rw [hitems, list_getD_set]
    split_ifs with hc
    · obtain ⟨rfl, -⟩ := hc
      rfl
    · rfl
  · intro j hj
    rw [hidx] at hj
    rw [hitems, list_getD_set, if_neg ?_]
    rintro ⟨rfl, -⟩
    exact hj rfl
  · rw [hidx]
    exact hgen
  · rw [hidx]
    exact hl

/-- Witness for the C8 theorem at a concrete input: the single `Create`
on a fresh capacity-1 pool occupies slot 0, which was empty before. -/
theorem claim8_create_frame_witness :
    (mem_handle.Reachable (mem_handle.HandlePool.init Nat 1)) ∧
      ((mem_handle.HandlePool.init Nat 1).free_list ≠ []) ∧
      (((mem_handle.HandlePool.init Nat 1).items.getD
          ((mem_handle.HandlePool.init Nat 1).Create 5).1.index
          (mem_handle.dItem Nat)).in_use = false) ∧
      ((((mem_handle.HandlePool.init Nat 1).Create 5).2.items.getD
          ((mem_handle.HandlePool.init Nat 1).Create 5).1.index
          (mem_handle.dItem Nat)).in_use = true) ∧
      ((mem_handle.HandlePool.init Nat 1).free_list.getLast? =
        some ((mem_handle.HandlePool.init Nat 1).Create 5).1.index) :=
  ⟨⟨1, [], rfl⟩, by decide,
    (claim8_create_frame Nat (mem_handle.HandlePool.init Nat 1) 5 ⟨1, [], rfl⟩ (by decide)).1,
    (claim8_create_frame Nat (mem_handle.HandlePool.init Nat 1) 5 ⟨1, [], rfl⟩ (by decide)).2.1,
    (claim8_create_frame Nat (mem_handle.HandlePool.init Nat 1) 5 ⟨1, [], rfl⟩ (by decide)).2.2.2.2.2⟩

end claim8


